import Mathlib

/-!
Shallow embedding of the fakeroot LD_PRELOAD shim (src/lib.rs).

Strings are modelled at the byte level (as `List Nat`), matching Rust's
`CStr` / `OsStr` / `PathBuf`, which on Unix are plain byte sequences; a
Rust `str` is a byte sequence that passed UTF-8 validation.  The process
environment and the filesystem are packaged in a `World`; every
environment read, disk-existence check and debug-log line performed by
the code is recorded as an `Event`, so that claims about lookup cost,
memoization and the diagnostic stream can be stated.  A result of `none`
models a Rust panic, which aborts the hosted process (the hooks are
extern "C" entry points, so an unwind cannot be caught by the caller).

A note on caching: the source declares
  const FAKEROOT_ROOT: OnceCell<Result<PathBuf, Box<dyn Error>>> = OnceCell::new();
  const FAKEROOT_DEBUG: OnceCell<bool> = OnceCell::new();
as `const` items, not `static` items.  A Rust `const` is inlined at every
use site, so each occurrence of `FAKEROOT_ROOT.get_or_init(get_fake_root)`
operates on a fresh, empty `OnceCell` and the initializer runs again.
Consequently the embedding carries no cache state between calls:
`get_fake_path` invokes `get_fake_root` on every call, and the `log!`
macro re-evaluates `is_enabled(ENV_FAKEROOT_DEBUG)` on every expansion.
-/

namespace Fakeroot

/-- Byte list of an ASCII string literal.  Every literal appearing in this
file is ASCII, where Unicode code points coincide with UTF-8 bytes. -/
def bytesOf (s : String) : List Nat :=
  s.data.map Char.toNat

/-- Required: absolute path to the directory to use as the fake root. -/
def ENV_FAKEROOT : String := "FAKEROOT"

/-- Optional: should this also hook directories? -/
def ENV_FAKEROOT_DIRS : String := "FAKEROOT_DIRS"

/-- Optional: should non existent files be faked? -/
def ENV_FAKEROOT_ALL : String := "FAKEROOT_ALL"

/-- Optional: should this hook log debug information to STDERR? -/
def ENV_FAKEROOT_DEBUG : String := "FAKEROOT_DEBUG"

/-- Used as a prefix for all debug logs. -/
def HOOK_TAG : String := "@HOOK@"

/-- Mirrors `std::str::Utf8Error`: the length of the valid prefix, and the
length of the offending byte sequence (`none` when the input ends with an
incomplete sequence). -/
structure Utf8Error where
  validUpTo : Nat
  errorLen : Option Nat
deriving DecidableEq, Repr

/-- Is the byte a UTF-8 continuation byte (0x80..0xBF)? -/
def isCont (b : Nat) : Bool :=
  decide (0x80 ≤ b ∧ b < 0xC0)

/-- Allowed second byte of a three-byte sequence, given its lead byte
(0xE0 needs 0xA0..0xBF, 0xED needs 0x80..0x9F, the rest 0x80..0xBF). -/
def cont3Second (b b1 : Nat) : Bool :=
  if b = 0xE0 then decide (0xA0 ≤ b1 ∧ b1 ≤ 0xBF)
  else if b = 0xED then decide (0x80 ≤ b1 ∧ b1 ≤ 0x9F)
  else isCont b1

/-- Allowed second byte of a four-byte sequence, given its lead byte
(0xF0 needs 0x90..0xBF, 0xF4 needs 0x80..0x8F, the rest 0x80..0xBF). -/
def cont4Second (b b1 : Nat) : Bool :=
  if b = 0xF0 then decide (0x90 ≤ b1 ∧ b1 ≤ 0xBF)
  else if b = 0xF4 then decide (0x80 ≤ b1 ∧ b1 ≤ 0x8F)
  else isCont b1

/-- The UTF-8 validation run of `std::str::from_utf8`, carrying the index
of the current position for the error payload. -/
def utf8Run : Nat → List Nat → Except Utf8Error Unit
  | _, [] => Except.ok ()
  | i, b :: rest =>
    if b < 0x80 then utf8Run (i + 1) rest
    else if b < 0xC2 then Except.error ⟨i, some 1⟩
    else if b < 0xE0 then
      match rest with
      | [] => Except.error ⟨i, none⟩
      | b1 :: rest1 =>
        if isCont b1 then utf8Run (i + 2) rest1
        else Except.error ⟨i, some 1⟩
    else if b < 0xF0 then
      match rest with
      | [] => Except.error ⟨i, none⟩
      | b1 :: rest1 =>
        if cont3Second b b1 then
          match rest1 with
          | [] => Except.error ⟨i, none⟩
          | b2 :: rest2 =>
            if isCont b2 then utf8Run (i + 3) rest2
            else Except.error ⟨i, some 2⟩
        else Except.error ⟨i, some 1⟩
    else if b < 0xF5 then
      match rest with
      | [] => Except.error ⟨i, none⟩
      | b1 :: rest1 =>
        if cont4Second b b1 then
          match rest1 with
          | [] => Except.error ⟨i, none⟩
          | b2 :: rest2 =>
            if isCont b2 then
              match rest2 with
              | [] => Except.error ⟨i, none⟩
              | b3 :: rest3 =>
                if isCont b3 then utf8Run (i + 4) rest3
                else Except.error ⟨i, some 3⟩
            else Except.error ⟨i, some 2⟩
        else Except.error ⟨i, some 1⟩
    else Except.error ⟨i, some 1⟩

/-- Mirror of `std::str::from_utf8`, reduced to its success/error verdict
(the returned `&str` shares the input's bytes, so no data is produced). -/
def fromUtf8 (l : List Nat) : Except Utf8Error Unit :=
  utf8Run 0 l

/-- Does the byte list decode as UTF-8? -/
def isValidUtf8 (l : List Nat) : Bool :=
  match fromUtf8 l with
  | Except.ok _ => true
  | Except.error _ => false

/-- Mirror of `std::env::VarError`. -/
inductive VarError where
  | notPresent
  | notUnicode (raw : List Nat)
deriving DecidableEq, Repr

deriving instance DecidableEq for Except

/-- The process environment and filesystem visible to the shim.  Both are
fixed for the lifetime of a process (the model in the spec: the
environment does not change mid-process). -/
structure World where
  env : String → Option (List Nat)
  fsExists : List Nat → Bool

/-- Mirror of `std::env::var`: absent keys give `NotPresent`, present but
non-UTF-8 values give `NotUnicode`. -/
def envVar (w : World) (key : String) : Except VarError (List Nat) :=
  match w.env key with
  | none => Except.error VarError.notPresent
  | some v => if isValidUtf8 v then Except.ok v else Except.error (VarError.notUnicode v)

/-- One observable side effect of the shim: a read of an environment
variable, a disk existence check (a stat), or a line written to the
debug stream. -/
inductive Event where
  | envRead (key : String)
  | fsCheck (path : List Nat)
  | logLine (line : List Nat)
deriving DecidableEq, Repr

/-- The distinct failure values flowing through the code's
`Box<dyn Error>` results, one constructor per construction site. -/
inductive FakeErr where
  | decodeFailed (e : Utf8Error)
  | varErr (e : VarError)
  | rootNotAbsolute
  | rootNotOnDisk
  | notInFakeRoot (pathStr : List Nat)
deriving DecidableEq, Repr

/-- ASCII decimal digits of a number, for rendering error messages. -/
def natBytes (n : Nat) : List Nat :=
  (Nat.toDigits 10 n).map Char.toNat

/-- Display text of `std::str::Utf8Error`. -/
def utf8ErrorMsg : Utf8Error → List Nat
  | ⟨v, some n⟩ =>
    bytesOf "invalid utf-8 sequence of " ++ natBytes n ++
      bytesOf " bytes from index " ++ natBytes v
  | ⟨v, none⟩ => bytesOf "incomplete utf-8 byte sequence from index " ++ natBytes v

/-- Display text of `std::env::VarError`.  (For the non-Unicode case the
real Display additionally escapes the raw value Debug-style; only the
fixed prefix of the message is relied on anywhere below.) -/
def renderVarError : VarError → List Nat
  | VarError.notPresent => bytesOf "environment variable not found"
  | VarError.notUnicode raw =>
    bytesOf "environment variable was not valid unicode: " ++ (34 :: raw ++ [34])

/-- The message each error renders to, as in the source's `format!` calls. -/
def renderErr : FakeErr → List Nat
  | FakeErr.decodeFailed e => bytesOf "failed to read string: " ++ utf8ErrorMsg e
  | FakeErr.varErr e => renderVarError e
  | FakeErr.rootNotAbsolute => bytesOf (ENV_FAKEROOT ++ " is not absolute")
  | FakeErr.rootNotOnDisk => bytesOf (ENV_FAKEROOT ++ " does not exist on disk")
  | FakeErr.notInFakeRoot p => bytesOf "not in fake root: " ++ p

/-- `Path::is_absolute` on Unix: the path has a root, i.e. starts with the
separator byte 0x2F. -/
def isAbsolute : List Nat → Bool
  | [] => false
  | b :: _ => b == 0x2F

/-- `PathBuf::join` on Unix: an absolute argument replaces the base;
otherwise a separator is inserted when the base is non-empty and does not
already end with one, and the argument is appended. -/
def pathJoin (base p : List Nat) : List Nat :=
  if isAbsolute p then p
  else
    match base.getLast? with
    | none => p
    | some b => if b == 0x2F then base ++ p else base ++ 0x2F :: p

/-- The byte slice `&s[1..]` on a `str`: panics (`none`) when the string
is empty (byte index 1 out of bounds) or when index 1 is not a character
boundary (the byte at index 1 is a continuation byte). -/
def slice1 : List Nat → Option (List Nat)
  | [] => none
  | [_] => some []
  | _ :: b1 :: t => if isCont b1 then none else some (b1 :: t)

/-- Mirror of `fn is_enabled`: the key is enabled when `env::var` succeeds
and the value is neither the literal "false" nor the literal "0". -/
def is_enabled (w : World) (key : String) : Bool :=
  match envVar w key with
  | Except.ok val => val != bytesOf "false" && val != bytesOf "0"
  | Except.error _ => false

/-- Events of one expansion of the `log!` macro: since `FAKEROOT_DEBUG` is
a `const` `OnceCell`, a fresh cell is inlined at each expansion and
`is_enabled(ENV_FAKEROOT_DEBUG)` (an environment read) runs every time;
the line is written only when the flag is enabled. -/
def logEvents (w : World) (line : List Nat) : List Event :=
  Event.envRead ENV_FAKEROOT_DEBUG ::
    (if is_enabled w ENV_FAKEROOT_DEBUG then [Event.logLine line] else [])

/-- Mirror of `fn get_fake_root`: read `FAKEROOT`, require an absolute
path that exists on disk.  The returned trace records the environment
read and (when reached) the disk check. -/
def get_fake_root (w : World) : Except FakeErr (List Nat) × List Event :=
  match envVar w ENV_FAKEROOT with
  | Except.ok path =>
    if isAbsolute path then
      if w.fsExists path then
        (Except.ok path, [Event.envRead ENV_FAKEROOT, Event.fsCheck path])
      else
        (Except.error FakeErr.rootNotOnDisk, [Event.envRead ENV_FAKEROOT, Event.fsCheck path])
    else (Except.error FakeErr.rootNotAbsolute, [Event.envRead ENV_FAKEROOT])
  | Except.error e => (Except.error (FakeErr.varErr e), [Event.envRead ENV_FAKEROOT])

/-- The successful debug line `"{HOOK_TAG}: {orig} => {fake}"`.  (The
`Display` of a `PathBuf` is lossy UTF-8 decoding, which is the identity on
the byte level for the valid-UTF-8 paths this program ever logs.) -/
def mapLine (orig fake : List Nat) : List Nat :=
  bytesOf (HOOK_TAG ++ ": ") ++ orig ++ bytesOf " => " ++ fake

/-- Mirror of `fn get_fake_path`.  Decode the C string as UTF-8, resolve
the fake root (afresh on every call, see the module comment on `const`
cells), strip the first byte with `&path_str[1..]` (a possible panic,
i.e. `none`), join onto the root, apply the `FAKEROOT_ALL` existence
policy, log the mapping, and build the `CString` (whose `unwrap` panics on
an interior NUL byte). -/
def get_fake_path (w : World) (cBytes : List Nat) :
    Option (Except FakeErr (List Nat) × List Event) :=
  match fromUtf8 cBytes with
  | Except.error e => some (Except.error (FakeErr.decodeFailed e), [])
  | Except.ok _ =>
    match get_fake_root w with
    | (Except.error e, ev) => some (Except.error e, ev)
    | (Except.ok fake_root, ev) =>
      match slice1 cBytes with
      | none => none
      | some rel =>
        let fake_path := pathJoin fake_root rel
        if is_enabled w ENV_FAKEROOT_ALL then
          if fake_path.contains 0 then none
          else
            some (Except.ok fake_path,
              ev ++ [Event.envRead ENV_FAKEROOT_ALL] ++ logEvents w (mapLine cBytes fake_path))
        else
          if w.fsExists fake_path then
            if fake_path.contains 0 then none
            else
              some (Except.ok fake_path,
                ev ++ [Event.envRead ENV_FAKEROOT_ALL, Event.fsCheck fake_path] ++
                  logEvents w (mapLine cBytes fake_path))
          else
            some (Except.error (FakeErr.notInFakeRoot cBytes),
              ev ++ [Event.envRead ENV_FAKEROOT_ALL, Event.fsCheck fake_path])

/-- The four hooked symbols.  They differ only in their forwarded extra
arguments and in the `opendir` guard, neither of which affects the path
decision, so the extra arguments are not modelled. -/
inductive CallKind where
  | copen
  | copen64
  | cfopen
  | copendir
deriving DecidableEq, Repr

/-- The `$cond` guard of the `do_hook!` macro: literally `true` for every
hook except `opendir`, which passes `is_enabled(ENV_FAKEROOT_DIRS)`. -/
def hookCond (w : World) : CallKind → Bool
  | CallKind.copendir => is_enabled w ENV_FAKEROOT_DIRS
  | _ => true

/-- The events of evaluating the guard: only the `opendir` guard reads the
environment, and a match guard runs only when its pattern (the `Ok` arm)
matched. -/
def condEvents : CallKind → List Event
  | CallKind.copendir => [Event.envRead ENV_FAKEROOT_DIRS]
  | _ => []

/-- Outcome of one hooked call that returned (did not abort): whether the
rewritten path was used, the path handed to the real implementation, and
the side effects observed on the way. -/
structure HookResult where
  usedFake : Bool
  pathUsed : List Nat
  trace : List Event
deriving DecidableEq, Repr

/-- Mirror of the `do_hook!` macro body: compute the fake path; on `Ok`
use it when the guard holds and the original path otherwise; on `Err` log
the reason and use the original path.  `none` propagates a panic. -/
def do_hook (w : World) (k : CallKind) (p : List Nat) : Option HookResult :=
  match get_fake_path w p with
  | none => none
  | some (Except.ok c, ev) =>
    if hookCond w k then some ⟨true, c, ev ++ condEvents k⟩
    else some ⟨false, p, ev ++ condEvents k⟩
  | some (Except.error e, ev) =>
    some ⟨false, p, ev ++ logEvents w (bytesOf (HOOK_TAG ++ ": ") ++ renderErr e)⟩

/-- The `open` hook. -/
def my_open (w : World) (p : List Nat) : Option HookResult :=
  do_hook w CallKind.copen p

/-- The `open64` hook. -/
def my_open64 (w : World) (p : List Nat) : Option HookResult :=
  do_hook w CallKind.copen64 p

/-- The `fopen` hook. -/
def my_fopen (w : World) (p : List Nat) : Option HookResult :=
  do_hook w CallKind.cfopen p

/-- The `opendir` hook. -/
def my_opendir (w : World) (p : List Nat) : Option HookResult :=
  do_hook w CallKind.copendir p

/-- A sequence of hooked calls in one process, with the concatenated
event trace; `none` when some call aborts the process. -/
def runCalls (w : World) : List (CallKind × List Nat) → Option (List Event)
  | [] => some []
  | (k, p) :: rest =>
    match do_hook w k p with
    | none => none
    | some r =>
      match runCalls w rest with
      | none => none
      | some tr => some (r.trace ++ tr)

/-- The debug-stream contents of a trace: its log lines, in order. -/
def logLines (tr : List Event) : List (List Nat) :=
  tr.filterMap fun e =>
    match e with
    | Event.logLine l => some l
    | _ => none

/-- How many times a trace reads a given environment key. -/
def countEnvReads (tr : List Event) (key : String) : Nat :=
  (tr.filter fun e =>
    match e with
    | Event.envRead k => k == key
    | _ => false).length

/-- How many times a trace checks a given path for existence on disk. -/
def countFsChecks (tr : List Event) (p : List Nat) : Nat :=
  (tr.filter fun e =>
    match e with
    | Event.fsCheck q => q == p
    | _ => false).length

/-- The byte string "/tmp", used as the fake root of the concrete worlds. -/
def tmpRoot : List Nat := bytesOf "/tmp"

/-- World with a valid fake root /tmp containing etc/hosts; all flags
unset. -/
def w1 : World where
  env := fun k => if k = ENV_FAKEROOT then some tmpRoot else none
  fsExists := fun p => p == tmpRoot || p == bytesOf "/tmp/etc/hosts"

/-- World with a valid fake root /tmp containing etc, debug enabled, and
the directory hook left unset. -/
def w2 : World where
  env := fun k =>
    if k = ENV_FAKEROOT then some tmpRoot
    else if k = ENV_FAKEROOT_DEBUG then some (bytesOf "1")
    else none
  fsExists := fun p => p == tmpRoot || p == bytesOf "/tmp/etc"

/-- World with a valid fake root /tmp and FAKEROOT_ALL enabled. -/
def w4 : World where
  env := fun k =>
    if k = ENV_FAKEROOT then some tmpRoot
    else if k = ENV_FAKEROOT_ALL then some (bytesOf "1")
    else none
  fsExists := fun p => p == tmpRoot

/-- World whose FAKEROOT value "tmp" is a relative path. -/
def w7 : World where
  env := fun k => if k = ENV_FAKEROOT then some (bytesOf "tmp") else none
  fsExists := fun _ => false

/-- World whose FAKEROOT value is the lone byte 0xFF, not valid UTF-8. -/
def wNU : World where
  env := fun k => if k = ENV_FAKEROOT then some [255] else none
  fsExists := fun _ => false

/-- Trace of `opendir("/etc")` in `w2` (dirs disabled, debug enabled). -/
def c2trace : List Event :=
  [Event.envRead ENV_FAKEROOT, Event.fsCheck tmpRoot,
   Event.envRead ENV_FAKEROOT_ALL, Event.fsCheck (bytesOf "/tmp/etc"),
   Event.envRead ENV_FAKEROOT_DEBUG,
   Event.logLine (mapLine (bytesOf "/etc") (bytesOf "/tmp/etc")),
   Event.envRead ENV_FAKEROOT_DIRS]

/-- Trace of one `open("/etc/hosts")` call in `w1`. -/
def c3trace : List Event :=
  [Event.envRead ENV_FAKEROOT, Event.fsCheck tmpRoot,
   Event.envRead ENV_FAKEROOT_ALL, Event.fsCheck (bytesOf "/tmp/etc/hosts"),
   Event.envRead ENV_FAKEROOT_DEBUG]

/-- Trace of `get_fake_path("//x")` in `w4`. -/
def c4trace : List Event :=
  [Event.envRead ENV_FAKEROOT, Event.fsCheck tmpRoot,
   Event.envRead ENV_FAKEROOT_ALL, Event.envRead ENV_FAKEROOT_DEBUG]

/-- Trace of one `open("/etc")` call in `w2`. -/
def c5trace : List Event :=
  [Event.envRead ENV_FAKEROOT, Event.fsCheck tmpRoot,
   Event.envRead ENV_FAKEROOT_ALL, Event.fsCheck (bytesOf "/tmp/etc"),
   Event.envRead ENV_FAKEROOT_DEBUG,
   Event.logLine (mapLine (bytesOf "/etc") (bytesOf "/tmp/etc"))]

/-! Helper lemmas shared by the claim theorems. -/

/-- When the first byte is a one-byte character and the whole input is
valid UTF-8, index 1 is a character boundary, so the byte slice succeeds
and drops exactly the first byte. -/
theorem slice1_of_valid_head_lt (b : Nat) (rest : List Nat) (hb : b < 0x80)
    (h : fromUtf8 (b :: rest) = Except.ok ()) :
    slice1 (b :: rest) = some rest := by
  cases rest with
  | nil => rfl
  | cons b1 t =>
    have hc : isCont b1 = false := by
      cases hx : isCont b1 with
      | false => rfl
      | true =>
        exfalso
        have hrange : 0x80 ≤ b1 ∧ b1 < 0xC0 := of_decide_eq_true hx
        unfold fromUtf8 utf8Run at h
        rw [if_pos hb] at h
        unfold utf8Run at h
        rw [if_neg (by omega), if_pos (by omega)] at h
        exact Except.noConfusion h
    simp [slice1, hc]

/-- For a decodable absolute path the byte slice drops exactly the leading
separator. -/
theorem slice1_of_absolute (p : List Nat) (hdec : fromUtf8 p = Except.ok ())
    (habs : isAbsolute p = true) : slice1 p = some (p.drop 1) := by
  cases p with
  | nil => simp [isAbsolute] at habs
  | cons b rest =>
    have hb : b = 0x2F := by simpa [isAbsolute] using habs
    subst hb
    simpa using slice1_of_valid_head_lt 0x2F rest (by omega) hdec

/-- A successfully resolved fake root is an absolute path. -/
theorem get_fake_root_ok_isAbsolute (w : World) (R : List Nat) (ev : List Event)
    (h : get_fake_root w = (Except.ok R, ev)) : isAbsolute R = true := by
  unfold get_fake_root at h
  cases he : envVar w ENV_FAKEROOT with
  | error e =>
    simp only [he] at h
    simp at h
  | ok v =>
    simp only [he] at h
    by_cases ha : isAbsolute v = true
    · rw [if_pos ha] at h
      by_cases hx : w.fsExists v = true
      · rw [if_pos hx] at h
        have hv : v = R := by
          have := congrArg Prod.fst h
          simpa using this
        rw [← hv]; exact ha
      · rw [if_neg hx] at h
        simp at h
    · rw [if_neg ha] at h
      simp at h

/-- Evaluation of `get_fake_path` once decoding, root resolution and the
byte slice are known: the remaining behavior is exactly the
`FAKEROOT_ALL` / existence policy of the source. -/
theorem get_fake_path_spec (w : World) (p R : List Nat) (ev : List Event)
    (hdec : fromUtf8 p = Except.ok ())
    (hroot : get_fake_root w = (Except.ok R, ev))
    (hsl : slice1 p = some (p.drop 1))
    (hnul : (pathJoin R (p.drop 1)).contains 0 = false) :
    get_fake_path w p =
      if is_enabled w ENV_FAKEROOT_ALL then
        some (Except.ok (pathJoin R (p.drop 1)),
          ev ++ [Event.envRead ENV_FAKEROOT_ALL] ++
            logEvents w (mapLine p (pathJoin R (p.drop 1))))
      else if w.fsExists (pathJoin R (p.drop 1)) then
        some (Except.ok (pathJoin R (p.drop 1)),
          ev ++ [Event.envRead ENV_FAKEROOT_ALL, Event.fsCheck (pathJoin R (p.drop 1))] ++
            logEvents w (mapLine p (pathJoin R (p.drop 1))))
      else
        some (Except.error (FakeErr.notInFakeRoot p),
          ev ++ [Event.envRead ENV_FAKEROOT_ALL, Event.fsCheck (pathJoin R (p.drop 1))]) := by
  have hnul2 : 0 ∉ pathJoin R p.tail := by
    simpa using hnul
  simp only [get_fake_path, hdec, hroot, hsl]
  split
  · simp [hnul2]
  · split <;> simp [hnul2]

/-! Claim theorems. -/

/-- C1: the claim says every intercepted call returns normally for every
input path, including the empty string, under every environment
configuration.  The code violates this: with a valid fake root configured,
`open("")` reaches the byte slice of the empty decoded path, which is out
of bounds, so the hook panics (modelled by `none`) and aborts the hosted
process instead of invoking the original implementation. -/
theorem c1_empty_path_aborts : my_open w1 (bytesOf "") = none := by decide

/-- C4 counterexample: for the input "//x" with fake root "/tmp" (and
missing files allowed, so the computed candidate is returned), the
remainder after stripping one separator is "/x", which `PathBuf::join`
treats as absolute: the result is "/x", the shadow root is discarded, and
the candidate is not the byte-for-byte join claimed. -/
theorem c4_double_slash_discards_root :
    get_fake_path w4 (bytesOf "//x") = some (Except.ok (bytesOf "/x"), c4trace) ∧
    bytesOf "/x" ≠ tmpRoot ++ (bytesOf "//x").drop 1 ∧
    bytesOf "/x" ≠ bytesOf "/tmp/x" ∧
    (bytesOf "/x").take tmpRoot.length ≠ tmpRoot := by decide

/-- C4 amended: for an absolute decodable input P with resolved root R,
the candidate is R joined with P minus its first byte under Rust's
path-join semantics: when the remainder does not itself begin with a
separator this is the byte-for-byte join of R and the remainder (with one
separator inserted iff R does not already end with one), but when P
begins with two separators the remainder is treated as absolute and the
shadow root is discarded, the candidate being the remainder itself. -/
theorem c4_strip_and_join (w : World) (p R : List Nat) (ev : List Event)
    (hdec : fromUtf8 p = Except.ok ())
    (habs : isAbsolute p = true)
    (hroot : get_fake_root w = (Except.ok R, ev))
    (hall : is_enabled w ENV_FAKEROOT_ALL = true)
    (hnul : (pathJoin R (p.drop 1)).contains 0 = false) :
    (∃ ev2, get_fake_path w p = some (Except.ok (pathJoin R (p.drop 1)), ev2)) ∧
    (isAbsolute (p.drop 1) = false →
      pathJoin R (p.drop 1) =
        R ++ (if R.getLast? = some 0x2F then [] else [0x2F]) ++ p.drop 1) ∧
    (isAbsolute (p.drop 1) = true → pathJoin R (p.drop 1) = p.drop 1) := by
  have hsl : slice1 p = some (p.drop 1) := slice1_of_absolute p hdec habs
  refine ⟨⟨_, by rw [get_fake_path_spec w p R ev hdec hroot hsl hnul, if_pos hall]⟩, ?_, ?_⟩
  · intro hrel
    have hra : isAbsolute R = true := get_fake_root_ok_isAbsolute w R ev hroot
    unfold pathJoin
    rw [if_neg (by rw [hrel]; simp)]
    cases hR : R.getLast? with
    | none =>
      have hRnil : R = [] := by simpa using hR
      rw [hRnil] at hra
      simp [isAbsolute] at hra
    | some b =>
      by_cases hb47 : b = 0x2F
      · subst hb47
        simp
      · simp [hb47]
  · intro hrel
    unfold pathJoin
    rw [if_pos hrel]

/-- C4 amended, witnessed at the concrete input "/etc" in the world with
fake root "/tmp" and missing files allowed. -/
theorem c4_strip_and_join_witness :
    ∃ ev2, get_fake_path w4 (bytesOf "/etc") =
      some (Except.ok (pathJoin tmpRoot ((bytesOf "/etc").drop 1)), ev2) :=
  (c4_strip_and_join w4 (bytesOf "/etc") tmpRoot
    [Event.envRead ENV_FAKEROOT, Event.fsCheck tmpRoot]
    (by decide) (by decide) (by decide) (by decide) (by decide)).1

/-- C6: with a valid root and a decodable absolute input, the existence
policy is as claimed: with FAKEROOT_ALL disabled the candidate is
returned iff it exists on disk and otherwise the call fails with the
not-in-fake-root error (a fall-through); with FAKEROOT_ALL enabled the
candidate is returned regardless of existence. -/
theorem c6_existence_policy (w : World) (p R : List Nat) (ev : List Event)
    (hdec : fromUtf8 p = Except.ok ())
    (habs : isAbsolute p = true)
    (hroot : get_fake_root w = (Except.ok R, ev))
    (hnul : (pathJoin R (p.drop 1)).contains 0 = false) :
    (is_enabled w ENV_FAKEROOT_ALL = false →
      (w.fsExists (pathJoin R (p.drop 1)) = true →
        ∃ ev2, get_fake_path w p = some (Except.ok (pathJoin R (p.drop 1)), ev2)) ∧
      (w.fsExists (pathJoin R (p.drop 1)) = false →
        ∃ ev2, get_fake_path w p = some (Except.error (FakeErr.notInFakeRoot p), ev2))) ∧
    (is_enabled w ENV_FAKEROOT_ALL = true →
      ∃ ev2, get_fake_path w p = some (Except.ok (pathJoin R (p.drop 1)), ev2)) := by
  have hsl : slice1 p = some (p.drop 1) := slice1_of_absolute p hdec habs
  rw [get_fake_path_spec w p R ev hdec hroot hsl hnul]
  constructor
  · intro hall
    rw [if_neg (by simp [hall])]
    constructor
    · intro hex
      rw [if_pos hex]
      exact ⟨_, rfl⟩
    · intro hex
      rw [if_neg (by rw [hex]; simp)]
      exact ⟨_, rfl⟩
  · intro hall
    rw [if_pos hall]
    exact ⟨_, rfl⟩

/-- C6, witnessed at the concrete input "/etc" in the world with fake
root "/tmp", debug enabled and FAKEROOT_ALL unset, where /tmp/etc exists. -/
theorem c6_existence_policy_witness :
    ∃ ev2, get_fake_path w2 (bytesOf "/etc") =
      some (Except.ok (pathJoin tmpRoot ((bytesOf "/etc").drop 1)), ev2) :=
  ((c6_existence_policy w2 (bytesOf "/etc") tmpRoot
    [Event.envRead ENV_FAKEROOT, Event.fsCheck tmpRoot]
    (by decide) (by decide) (by decide) (by decide)).1 (by decide)).1 (by decide)

/-- C9 counterexample: the two-byte input 0xC3 0xA9 (the character
LATIN SMALL LETTER E WITH ACUTE) is non-empty, decodable and does not
start with a separator, yet the computation is not defined for it: byte
index 1 is not a character boundary, so the slice panics (none) instead
of producing a candidate from the input minus its first character. -/
theorem c9_multibyte_first_char_aborts :
    fromUtf8 [195, 169] = Except.ok () ∧
    [195, 169] ≠ ([] : List Nat) ∧
    isAbsolute [195, 169] = false ∧
    get_fake_path w4 [195, 169] = none := by decide

/-- C9 amended: the first byte is removed unconditionally, not only when
it is a separator — for every non-empty decodable input whose first
character is a single byte and is not a separator, with a resolved root
and missing files allowed, the candidate is the root joined with the
input minus its first byte; inputs that are empty or whose first
character spans several bytes make the byte slice panic instead. -/
theorem c9_first_byte_stripped (w : World) (R : List Nat) (ev : List Event)
    (b : Nat) (rest : List Nat)
    (hb : b < 0x80) (hbsep : b ≠ 0x2F)
    (hdec : fromUtf8 (b :: rest) = Except.ok ())
    (hroot : get_fake_root w = (Except.ok R, ev))
    (hall : is_enabled w ENV_FAKEROOT_ALL = true)
    (hnul : (pathJoin R rest).contains 0 = false) :
    isAbsolute (b :: rest) = false ∧
    ∃ ev2, get_fake_path w (b :: rest) = some (Except.ok (pathJoin R rest), ev2) := by
  constructor
  · simp [isAbsolute, hbsep]
  · have hsl : slice1 (b :: rest) = some ((b :: rest).drop 1) := by
      simpa using slice1_of_valid_head_lt b rest hb hdec
    have hgoal := get_fake_path_spec w (b :: rest) R ev hdec hroot hsl (by simpa using hnul)
    rw [if_pos hall] at hgoal
    have hdrop : (b :: rest).drop 1 = rest := rfl
    rw [hdrop] at hgoal
    exact ⟨_, hgoal⟩

/-- C9 amended, witnessed at the concrete relative input "abc" in the
world with fake root "/tmp" and missing files allowed: the candidate is
"/tmp/bc", i.e. the root joined with the input minus its first byte. -/
theorem c9_first_byte_stripped_witness :
    ∃ ev2, get_fake_path w4 (bytesOf "abc") =
      some (Except.ok (pathJoin tmpRoot (bytesOf "bc")), ev2) :=
  (c9_first_byte_stripped w4 tmpRoot
    [Event.envRead ENV_FAKEROOT, Event.fsCheck tmpRoot]
    97 (bytesOf "bc") (by decide) (by decide) (by decide) (by decide)
    (by decide) (by decide)).2

/-- C7: the root resolver checks its conditions in order: it fails with
the missing-variable error iff the key is absent; with the key present
(and decodable), it fails with the not-absolute error iff the value is
not an absolute path; with an absolute value it fails with the
not-on-disk error iff the path does not exist; and otherwise it succeeds
with the validated absolute path. -/
theorem c7_root_resolution_order (w : World) :
    ((get_fake_root w).fst = Except.error (FakeErr.varErr VarError.notPresent) ↔
      w.env ENV_FAKEROOT = none) ∧
    (∀ v, w.env ENV_FAKEROOT = some v → isValidUtf8 v = true →
      ((get_fake_root w).fst = Except.error FakeErr.rootNotAbsolute ↔
        isAbsolute v = false) ∧
      (isAbsolute v = true →
        ((get_fake_root w).fst = Except.error FakeErr.rootNotOnDisk ↔
          w.fsExists v = false) ∧
        (w.fsExists v = true → (get_fake_root w).fst = Except.ok v))) := by
  cases he : w.env ENV_FAKEROOT with
  | none => simp [get_fake_root, envVar, he]
  | some v =>
    by_cases hu : isValidUtf8 v = true
    · by_cases ha : isAbsolute v = true
      · by_cases hx : w.fsExists v = true
        · simp [get_fake_root, envVar, he, hu, ha, hx]
        · simp [get_fake_root, envVar, he, hu, ha, hx]
      · simp [get_fake_root, envVar, he, hu, ha]
    · simp [get_fake_root, envVar, he, hu]

/-- C7, witnessed at a world whose FAKEROOT value "tmp" is relative: the
resolver fails with the not-absolute error. -/
theorem c7_root_resolution_order_witness :
    (get_fake_root w7).fst = Except.error FakeErr.rootNotAbsolute :=
  (((c7_root_resolution_order w7).2 (bytesOf "tmp") (by decide) (by decide)).1).mpr (by decide)

/-- C8: a flag key is enabled iff it is present (with a decodable value)
and its value is neither the literal "false" nor the literal "0"; an
absent key is disabled. -/
theorem c8_flag_truthiness (w : World) (key : String) :
    (w.env key = none → is_enabled w key = false) ∧
    (∀ v, w.env key = some v → isValidUtf8 v = true →
      (is_enabled w key = true ↔ v ≠ bytesOf "false" ∧ v ≠ bytesOf "0")) := by
  constructor
  · intro h
    simp [is_enabled, envVar, h]
  · intro v hv hval
    simp [is_enabled, envVar, hv, hval]

/-- C8, witnessed at the debug key of the world where FAKEROOT_DEBUG is
the string "1": the flag parses as enabled. -/
theorem c8_flag_truthiness_witness : is_enabled w2 ENV_FAKEROOT_DEBUG = true :=
  ((c8_flag_truthiness w2 ENV_FAKEROOT_DEBUG).2 (bytesOf "1")
    (by decide) (by decide)).mpr (by decide)

/-- C10: an environment value that is present but not valid Unicode
behaves like an absent key: any flag with such a value is disabled, and a
non-Unicode FAKEROOT value makes root resolution fail, so every
intercepted call of every kind returns normally with the original path. -/
theorem c10_non_unicode_env (w : World) (key : String) (v : List Nat)
    (hv : w.env key = some v) (hnu : isValidUtf8 v = false) :
    is_enabled w key = false ∧
    (key = ENV_FAKEROOT →
      (get_fake_root w).fst = Except.error (FakeErr.varErr (VarError.notUnicode v)) ∧
      ∀ (k : CallKind) (p : List Nat), ∃ tr, do_hook w k p = some ⟨false, p, tr⟩) := by
  have henv : envVar w key = Except.error (VarError.notUnicode v) := by
    simp [envVar, hv, hnu]
  refine ⟨by simp [is_enabled, henv], fun hkey => ?_⟩
  subst hkey
  have hroot : get_fake_root w =
      (Except.error (FakeErr.varErr (VarError.notUnicode v)),
        [Event.envRead ENV_FAKEROOT]) := by
    simp [get_fake_root, henv]
  refine ⟨by rw [hroot], fun k p => ?_⟩
  cases hdec : fromUtf8 p with
  | error e =>
    exact ⟨logEvents w (bytesOf (HOOK_TAG ++ ": ") ++ renderErr (FakeErr.decodeFailed e)),
      by simp [do_hook, get_fake_path, hdec]⟩
  | ok u =>
    cases u
    exact ⟨Event.envRead ENV_FAKEROOT ::
      logEvents w (bytesOf (HOOK_TAG ++ ": ") ++ renderErr (FakeErr.varErr (VarError.notUnicode v))),
      by simp [do_hook, get_fake_path, hdec, hroot]⟩

/-- C10, witnessed at a world whose FAKEROOT value is the single byte
0xFF: root resolution fails with the not-Unicode error. -/
theorem c10_non_unicode_env_witness :
    (get_fake_root wNU).fst =
      Except.error (FakeErr.varErr (VarError.notUnicode [255])) :=
  ((c10_non_unicode_env wNU ENV_FAKEROOT [255] (by decide) (by decide)).2 rfl).1

/-- Appending traces concatenates their log lines. -/
theorem logLines_append (a b : List Event) :
    logLines (a ++ b) = logLines a ++ logLines b := by
  simp [logLines]

/-- One expansion of the log macro emits exactly one line when debug is
enabled and none otherwise. -/
theorem logLines_logEvents (w : World) (l : List Nat) :
    logLines (logEvents w l) =
      if is_enabled w ENV_FAKEROOT_DEBUG = true then [l] else [] := by
  by_cases h : is_enabled w ENV_FAKEROOT_DEBUG = true <;> simp [logEvents, logLines, h]

/-- Root resolution never writes to the debug stream. -/
theorem logLines_get_fake_root (w : World) :
    logLines (get_fake_root w).snd = [] := by
  unfold get_fake_root
  cases he : envVar w ENV_FAKEROOT with
  | error e => simp [logLines]
  | ok v =>
    by_cases ha : isAbsolute v = true
    · by_cases hx : w.fsExists v = true <;> simp [ha, hx, logLines]
    · simp [ha, logLines]

/-- The guard events never include a log line. -/
theorem logLines_condEvents (k : CallKind) : logLines (condEvents k) = [] := by
  cases k <;> rfl

/-- The log lines a single path computation emits: none on failure, and
exactly the mapping line (when debug is enabled) on success. -/
theorem get_fake_path_logLines (w : World) (p : List Nat)
    (res : Except FakeErr (List Nat)) (ev : List Event)
    (h : get_fake_path w p = some (res, ev)) :
    (∀ e, res = Except.error e → logLines ev = []) ∧
    (∀ c, res = Except.ok c →
      logLines ev = if is_enabled w ENV_FAKEROOT_DEBUG = true then [mapLine p c] else []) := by
  unfold get_fake_path at h
  cases hdec : fromUtf8 p with
  | error e0 =>
    simp only [hdec, Option.some.injEq, Prod.mk.injEq] at h
    obtain ⟨hres, hev⟩ := h
    subst hres
    subst hev
    constructor
    · intro e he
      rfl
    · intro c hc
      exact Except.noConfusion hc
  | ok u =>
    cases u
    simp only [hdec] at h
    have hrootLog := logLines_get_fake_root w
    cases hroot : get_fake_root w with
    | mk rres rev =>
      rw [hroot] at hrootLog
      simp only [hroot] at h
      cases rres with
      | error e0 =>
        simp only [Option.some.injEq, Prod.mk.injEq] at h
        obtain ⟨hres, hev⟩ := h
        subst hres
        subst hev
        constructor
        · intro e he
          exact hrootLog
        · intro c hc
          exact Except.noConfusion hc
      | ok fake_root =>
        have hrev : logLines rev = [] := hrootLog
        cases hsl : slice1 p with
        | none =>
          simp only [hsl] at h
          exact Option.noConfusion h
        | some rel =>
          simp only [hsl] at h
          split at h
          · split at h
            · exact Option.noConfusion h
            · simp only [Option.some.injEq, Prod.mk.injEq] at h
              obtain ⟨hres, hev⟩ := h
              subst hres
              subst hev
              constructor
              · intro e he
                exact Except.noConfusion he
              · intro c hc
                have hc2 := Except.ok.inj hc
                subst hc2
                simp only [logLines_append, hrev, logLines_logEvents]
                simp [logLines]
          · split at h
            · split at h
              · exact Option.noConfusion h
              · simp only [Option.some.injEq, Prod.mk.injEq] at h
                obtain ⟨hres, hev⟩ := h
                subst hres
                subst hev
                constructor
                · intro e he
                  exact Except.noConfusion he
                · intro c hc
                  have hc2 := Except.ok.inj hc
                  subst hc2
                  simp only [logLines_append, hrev, logLines_logEvents]
                  simp [logLines]
            · simp only [Option.some.injEq, Prod.mk.injEq] at h
              obtain ⟨hres, hev⟩ := h
              subst hres
              subst hev
              constructor
              · intro e he
                simp only [logLines_append, hrev]
                simp [logLines]
              · intro c hc
                exact Except.noConfusion hc

/-- Every hooked call that returns emits no log line with debug disabled,
and exactly one tagged line — a mapping or a rendered reason — with debug
enabled. -/
theorem do_hook_logLines (w : World) (k : CallKind) (p : List Nat) (r : HookResult)
    (h : do_hook w k p = some r) :
    (is_enabled w ENV_FAKEROOT_DEBUG = false → logLines r.trace = []) ∧
    (is_enabled w ENV_FAKEROOT_DEBUG = true →
      ∃ line, logLines r.trace = [line] ∧
        bytesOf (HOOK_TAG ++ ": ") <+: line ∧
        ((∃ fake, line = mapLine p fake) ∨
         (∃ e, line = bytesOf (HOOK_TAG ++ ": ") ++ renderErr e))) := by
  unfold do_hook at h
  split at h
  · exact Option.noConfusion h
  next c ev heq =>
    have hshape := get_fake_path_logLines w p (Except.ok c) ev heq
    have hev := hshape.2 c rfl
    have htr : r.trace = ev ++ condEvents k := by
      split at h <;>
      · rw [Option.some.injEq] at h
        rw [← h]
    rw [htr, logLines_append, hev, logLines_condEvents]
    constructor
    · intro hdbg
      rw [hdbg]
      simp
    · intro hdbg
      rw [hdbg]
      refine ⟨mapLine p c, by simp, ?_, Or.inl ⟨c, rfl⟩⟩
      exact ⟨p ++ (bytesOf " => " ++ c), by simp [mapLine]⟩
  next e ev heq =>
    have hshape := get_fake_path_logLines w p (Except.error e) ev heq
    have hev := hshape.1 e rfl
    rw [Option.some.injEq] at h
    have htr : r.trace = ev ++ logEvents w (bytesOf (HOOK_TAG ++ ": ") ++ renderErr e) := by
      rw [← h]
    rw [htr, logLines_append, hev, logLines_logEvents]
    constructor
    · intro hdbg
      rw [hdbg]
      simp
    · intro hdbg
      rw [hdbg]
      refine ⟨bytesOf (HOOK_TAG ++ ": ") ++ renderErr e, by simp, ?_, Or.inr ⟨e, rfl⟩⟩
      exact ⟨renderErr e, rfl⟩

/-- C2 counterexample: in a world with a valid fake root, debug enabled
and the directory flag unset, an opendir call does use the original path,
but contrary to the claim it reads the shadow-root key, stats the disk
for the candidate, and writes a diagnostic line. -/
theorem c2_lookup_and_log_despite_disabled :
    is_enabled w2 ENV_FAKEROOT_DIRS = false ∧
    my_opendir w2 (bytesOf "/etc") = some ⟨false, bytesOf "/etc", c2trace⟩ ∧
    countEnvReads c2trace ENV_FAKEROOT = 1 ∧
    countFsChecks c2trace (bytesOf "/tmp/etc") = 1 ∧
    logLines c2trace ≠ [] := by decide

/-- C2 amended: with the directory flag falsy an opendir call always uses
the original path, and path substitution occurs iff the flag is truthy
and the shadow-path computation succeeds — but the computation (with its
environment reads, disk checks and diagnostics) runs regardless of the
flag, its result merely being discarded. -/
theorem c2_opendir_gating (w : World) (p : List Nat) (r : HookResult)
    (h : my_opendir w p = some r) :
    (is_enabled w ENV_FAKEROOT_DIRS = false → r.usedFake = false ∧ r.pathUsed = p) ∧
    (r.usedFake = true ↔
      is_enabled w ENV_FAKEROOT_DIRS = true ∧
      ∃ c ev, get_fake_path w p = some (Except.ok c, ev)) := by
  unfold my_opendir do_hook at h
  split at h
  · exact Option.noConfusion h
  next c ev heq =>
    simp only [hookCond] at h
    by_cases hd : is_enabled w ENV_FAKEROOT_DIRS = true
    · rw [if_pos hd, Option.some.injEq] at h
      subst h
      refine ⟨fun hdd => ?_, ?_⟩
      · simp [hd] at hdd
      · constructor
        · intro _
          exact ⟨hd, c, ev, heq⟩
        · intro _
          rfl
    · rw [if_neg hd, Option.some.injEq] at h
      subst h
      refine ⟨fun _ => ⟨rfl, rfl⟩, ?_⟩
      constructor
      · intro hfalse
        exact Bool.noConfusion hfalse
      · rintro ⟨hdd, -⟩
        exact absurd hdd hd
  next e ev heq =>
    rw [Option.some.injEq] at h
    subst h
    refine ⟨fun _ => ⟨rfl, rfl⟩, ?_⟩
    constructor
    · intro hfalse
      exact Bool.noConfusion hfalse
    · rintro ⟨hdd, c2, ev2, hc⟩
      rw [heq, Option.some.injEq, Prod.mk.injEq] at hc
      exact (Except.noConfusion hc.1 : False).elim

/-- C2 amended, witnessed at the concrete opendir call of the
counterexample world: the original path is used. -/
theorem c2_opendir_gating_witness :
    (⟨false, bytesOf "/etc", c2trace⟩ : HookResult).usedFake = false ∧
    (⟨false, bytesOf "/etc", c2trace⟩ : HookResult).pathUsed = bytesOf "/etc" :=
  (c2_opendir_gating w2 (bytesOf "/etc") ⟨false, bytesOf "/etc", c2trace⟩
    (by decide)).1 (by decide)

/-- C3: the claim says the first outcome of root resolution is memoized
and later calls re-read nothing.  The code violates this: FAKEROOT_ROOT
is a `const` OnceCell, so a fresh cell is inlined at each use and every
call re-runs get_fake_root — two identical open calls in one process read
the FAKEROOT key twice and stat the root on disk twice. -/
theorem c3_root_reresolved_every_call :
    runCalls w1 [(CallKind.copen, bytesOf "/etc/hosts"), (CallKind.copen, bytesOf "/etc/hosts")] =
      some (c3trace ++ c3trace) ∧
    countEnvReads (c3trace ++ c3trace) ENV_FAKEROOT = 2 ∧
    countFsChecks (c3trace ++ c3trace) tmpRoot = 2 := by decide

/-- C5: over any sequence of hooked calls that return, the debug stream
is empty when the debug flag is disabled; when it is enabled, the stream
has exactly one line per call, each starting with the fixed tag and being
either the mapping for that call's original path or a rendered fallback
reason. -/
theorem c5_debug_stream (w : World) (cs : List (CallKind × List Nat)) (tr : List Event)
    (h : runCalls w cs = some tr) :
    (is_enabled w ENV_FAKEROOT_DEBUG = false → logLines tr = []) ∧
    (is_enabled w ENV_FAKEROOT_DEBUG = true →
      List.Forall₂ (fun c line =>
        bytesOf (HOOK_TAG ++ ": ") <+: line ∧
        ((∃ fake, line = mapLine c.snd fake) ∨
         (∃ e, line = bytesOf (HOOK_TAG ++ ": ") ++ renderErr e))) cs (logLines tr)) := by
  induction cs generalizing tr with
  | nil =>
    simp only [runCalls, Option.some.injEq] at h
    subst h
    exact ⟨fun _ => rfl, fun _ => List.Forall₂.nil⟩
  | cons c rest ih =>
    obtain ⟨k, p⟩ := c
    simp only [runCalls] at h
    cases hdh : do_hook w k p with
    | none =>
      simp only [hdh] at h
      exact Option.noConfusion h
    | some r =>
      simp only [hdh] at h
      cases hrc : runCalls w rest with
      | none =>
        simp only [hrc] at h
        exact Option.noConfusion h
      | some tr2 =>
        simp only [hrc, Option.some.injEq] at h
        subst h
        have h1 := do_hook_logLines w k p r hdh
        have h2 := ih tr2 hrc
        constructor
        · intro hdbg
          rw [logLines_append, h1.1 hdbg, h2.1 hdbg]
          rfl
        · intro hdbg
          obtain ⟨line, hline, hpre, hshape⟩ := h1.2 hdbg
          rw [logLines_append, hline]
          exact List.Forall₂.cons ⟨hpre, hshape⟩ (h2.2 hdbg)

/-- C5, witnessed at a single open("/etc") call in the debug-enabled
world: its trace is exactly c5trace and the stream shape follows. -/
theorem c5_debug_stream_witness :
    (is_enabled w2 ENV_FAKEROOT_DEBUG = false → logLines c5trace = []) ∧
    (is_enabled w2 ENV_FAKEROOT_DEBUG = true →
      List.Forall₂ (fun c line =>
        bytesOf (HOOK_TAG ++ ": ") <+: line ∧
        ((∃ fake, line = mapLine c.snd fake) ∨
         (∃ e, line = bytesOf (HOOK_TAG ++ ": ") ++ renderErr e)))
        [(CallKind.copen, bytesOf "/etc")] (logLines c5trace)) :=
  c5_debug_stream w2 [(CallKind.copen, bytesOf "/etc")] c5trace (by decide)

end Fakeroot
